import Mathlib

/-!
Verification of the training-loop orchestration of `train.py`
(deeplab-pytorch): the polynomial learning-rate scheduler, the
parameter grouper, the gradient-accumulation loop, the checkpoint
cadence and the timing log.  Python functions are embedded as pure
Lean functions; optimizer state is passed explicitly; floating-point
scalars are modelled as rationals; machine behaviour that can raise
is modelled with `Except`.
-/

namespace DeepLab

/-! ## Substring matching (Python `pat in s`) -/

/-- Boolean test that `pat` is an initial segment of `s` (on character
lists). -/
def chListIsPref : List Char → List Char → Bool
  | [], _ => true
  | _ :: _, [] => false
  | a :: as, b :: bs => a == b && chListIsPref as bs

/-- Boolean test that `pat` occurs as a contiguous run inside `s`
(on character lists). -/
def chListHasSub (pat : List Char) : List Char → Bool
  | [] => pat.isEmpty
  | c :: rest => chListIsPref pat (c :: rest) || chListHasSub pat rest

/-- Python's substring containment `pat in s` on strings. -/
def strContainsSub (s pat : String) : Bool :=
  chListHasSub pat.data s.data

/-! ## Model modules and the parameter grouper (`get_params`) -/

/-- One entry of `model.named_modules()`: either a 2-D convolution
module carrying a weight tensor and an optional bias tensor, or any
other module carrying its own parameter tensors.  Tensors are
identified by natural numbers. -/
inductive PMod where
  | conv2d (weight : ℕ) (bias : Option ℕ)
  | nonConv (ps : List ℕ)
deriving DecidableEq

/-- PyTorch `module.parameters()` for a leaf module: the weight, then
the bias when present. -/
def PMod.parameters : PMod → List ℕ
  | PMod.conv2d w b => w :: b.toList
  | PMod.nonConv ps => ps

/-- Boolean `isinstance(m, nn.Conv2d)`. -/
def PMod.isConv : PMod → Bool
  | PMod.conv2d _ _ => true
  | PMod.nonConv _ => false

/-- A model as the sequence produced by `named_modules()`: qualified
name paired with the module. -/
abbrev Model := List (String × PMod)

/-- Objects yielded by `get_params`: `some i` is the tensor `i`,
`none` is Python's `None` (a `Conv2d` built without bias). -/
abbrev TObj := Option ℕ

/-- Body of the `"1x"` branch of `get_params` for one named module:
if the qualified name contains `"layer"` and the module is a
`Conv2d`, yield every parameter of the module. -/
def yield1x (m : String × PMod) : List TObj :=
  if strContainsSub m.1 "layer" then
    match m.2 with
    | PMod.conv2d w b => ((PMod.conv2d w b).parameters).map some
    | PMod.nonConv _ => []
  else []

/-- Body of the `"10x"` branch of `get_params` for one named module:
if the qualified name contains `"aspp"` and the module is a `Conv2d`,
yield its weight. -/
def yield10x (m : String × PMod) : List TObj :=
  if strContainsSub m.1 "aspp" then
    match m.2 with
    | PMod.conv2d w _ => [some w]
    | PMod.nonConv _ => []
  else []

/-- Body of the `"20x"` branch of `get_params` for one named module:
if the qualified name contains `"aspp"` and the module is a `Conv2d`,
yield its bias attribute (possibly `None`). -/
def yield20x (m : String × PMod) : List TObj :=
  if strContainsSub m.1 "aspp" then
    match m.2 with
    | PMod.conv2d _ b => [b]
    | PMod.nonConv _ => []
  else []

/-- Embedding of `get_params(model, key)` (train.py lines 29-48): the
concatenation of the three key-guarded generator blocks. -/
def get_params (model : Model) (key : String) : List TObj :=
  (if key = "1x" then model.flatMap yield1x else []) ++
  (if key = "10x" then model.flatMap yield10x else []) ++
  (if key = "20x" then model.flatMap yield20x else [])

/-- Fixture model with one backbone convolution and one ASPP
convolution, used to instantiate the grouper theorems on concrete
input. -/
def modelW : Model :=
  [("layer1", PMod.conv2d 0 (some 1)), ("aspp_c0", PMod.conv2d 2 (some 3))]

/-! ## Optimizer parameter groups and the scheduler -/

/-- One entry of `optimizer.param_groups`: the member tensors and the
two mutable hyperparameters the script touches. -/
structure ParamGroup where
  params : List TObj
  lr : ℚ
  weight_decay : ℚ
deriving DecidableEq

/-- The SGD optimizer as the script configures it: three parameter
groups and a momentum setting. -/
structure Optimizer where
  g0 : ParamGroup
  g1 : ParamGroup
  g2 : ParamGroup
  momentum : ℚ
deriving DecidableEq

/-- Embedding of `poly_lr_scheduler` (train.py lines 51-57).  The
Python guard `if iter % lr_decay_iter or iter > max_iter: return None`
is a no-op exactly when `iter % lr_decay_iter` is nonzero or
`iter > max_iter`; otherwise the three group learning rates are
assigned.  The float exponent is modelled with a natural power on
rationals. -/
def poly_lr_scheduler (optimizer : Optimizer) (init_lr : ℚ)
    (iter lr_decay_iter max_iter : ℕ) (power : ℕ) : Optimizer :=
  if iter % lr_decay_iter ≠ 0 ∨ iter > max_iter then optimizer
  else
    let new_lr := init_lr * (1 - (iter : ℚ) / (max_iter : ℚ)) ^ power
    { optimizer with
        g0 := { optimizer.g0 with lr := new_lr }
        g1 := { optimizer.g1 with lr := 10 * new_lr }
        g2 := { optimizer.g2 with lr := 20 * new_lr } }

/-- Embedding of the optimizer construction (train.py lines 105-125):
group 0 from key `"1x"` at the configured learning rate and weight
decay, group 1 from key `"10x"` at ten times the learning rate and
the configured weight decay, group 2 from key `"20x"` at twenty times
the learning rate and weight decay `0.0`. -/
def buildOptimizer (model : Model) (lr weight_decay momentum : ℚ) : Optimizer :=
  { g0 := { params := get_params model "1x", lr := lr, weight_decay := weight_decay }
    g1 := { params := get_params model "10x", lr := 10 * lr, weight_decay := weight_decay }
    g2 := { params := get_params model "20x", lr := 20 * lr, weight_decay := 0 }
    momentum := momentum }

/-- Optimizer hyperparameter state after `n` outer iterations of the
training loop: iteration `k` (1-based) calls the scheduler with
`iter = k - 1` (train.py lines 146-153); no other statement of the
loop writes a parameter-group hyperparameter. -/
def loopOpt (opt : Optimizer) (init_lr : ℚ) (lr_decay max_iter power : ℕ) : ℕ → Optimizer
  | 0 => opt
  | n + 1 => poly_lr_scheduler (loopOpt opt init_lr lr_decay max_iter power n)
      init_lr n lr_decay max_iter power

/-! ## The gradient-accumulation loop (loss and gradient arithmetic) -/

/-- A differentiable scalar, dual-number style: its value and the
gradient (with respect to the model parameters, abstracted to one
scalar coefficient) that `backward()` on it would add to the gradient
buffers.  Autograd is linear, which this representation reflects. -/
structure Dual where
  val : ℚ
  grad : ℚ
deriving DecidableEq

/-- Addition of differentiable scalars (Python `loss += ...`). -/
def Dual.add (a b : Dual) : Dual := ⟨a.val + b.val, a.grad + b.grad⟩

/-- Lines 180-186: `loss = 0`, then `loss += criterion(logit, labels_)`
for each output scale. -/
def sumScaleLosses (scaleLosses : List Dual) : Dual :=
  scaleLosses.foldl Dual.add ⟨0, 0⟩

/-- Per-iteration loss bookkeeping: the accumulated gradient buffer
(cleared by `optimizer.zero_grad()`) and `iter_loss`. -/
structure IterState where
  gradBuf : ℚ
  iter_loss : ℚ
deriving DecidableEq

/-- One sub-iteration of the accumulation loop (train.py lines
180-192): sum the per-scale losses, divide by `ITER_SIZE`
(`loss /= float(CONFIG.ITER_SIZE)`), backpropagate (adding the
divided gradient into the buffer), and add the divided value into
`iter_loss`. -/
def runSubIteration (iter_size : ℕ) (scaleLosses : List Dual) (s : IterState) : IterState :=
  let summed := sumScaleLosses scaleLosses
  let divided : Dual := ⟨summed.val / (iter_size : ℚ), summed.grad / (iter_size : ℚ)⟩
  { gradBuf := s.gradBuf + divided.grad
    iter_loss := s.iter_loss + divided.val }

/-- One outer iteration's accumulation phase (train.py lines 156-192):
`optimizer.zero_grad()`, `iter_loss = 0`, then the sub-iteration body
once per element of `subs` (the per-sub-iteration lists of per-scale
losses). -/
def runIterationLosses (iter_size : ℕ) (subs : List (List Dual)) : IterState :=
  subs.foldl (fun s sc => runSubIteration iter_size sc s) ⟨0, 0⟩

/-- The mean over `iter_size` of the per-sub-iteration
summed-across-scales losses, as a differentiable scalar. -/
def meanLossDual (iter_size : ℕ) (subs : List (List Dual)) : Dual :=
  let total := (subs.map sumScaleLosses).foldl Dual.add ⟨0, 0⟩
  ⟨total.val / (iter_size : ℚ), total.grad / (iter_size : ℚ)⟩

/-! ## Checkpoint cadence -/

/-- The files the script writes model weights to: `checkpoint_<i>.pth`
(determined by the iteration number), `checkpoint_current.pth` and
`checkpoint_final.pth`, all under `SAVE_DIR`. -/
inductive SaveFile where
  | history (iteration : ℕ)
  | current
  | final
deriving DecidableEq

/-- Boolean test for a history checkpoint file. -/
def SaveFile.isHistory : SaveFile → Bool
  | SaveFile.history _ => true
  | _ => false

/-- Checkpoint writes performed inside outer iteration `iteration`
(train.py lines 216-227): a history file when `iteration % ITER_SAVE
== 0`, then the current file when `iteration % 100 == 0`. -/
def iterationSaves (iter_save iteration : ℕ) : List SaveFile :=
  (if iteration % iter_save = 0 then [SaveFile.history iteration] else []) ++
  (if iteration % 100 = 0 then [SaveFile.current] else [])

/-- All checkpoint writes of a run, in order: the loop runs
`iteration` over `1..iter_max` (train.py line 138), and after the
loop the final file is written once (lines 235-237). -/
def runSaves (iter_max iter_save : ℕ) : List SaveFile :=
  ((List.range iter_max).map (· + 1)).flatMap (iterationSaves iter_save) ++ [SaveFile.final]

/-! ## Timing lists and `logs.csv` -/

/-- Timing-list state after the outer loop (train.py lines 158-199):
each outer iteration rebinds `data_times = []` and `compute_times =
[]`, appends one data-fetch latency per sub-iteration (`1..iter_size`)
to `data_times`, and after `optimizer.step()` appends a single
compute latency to `compute_times`.  `dt i s` is the data latency of
sub-iteration `s` of outer iteration `i`; `ct i` is the compute
latency recorded in outer iteration `i`. -/
def timingState (iter_max iter_size : ℕ) (dt : ℕ → ℕ → ℚ) (ct : ℕ → ℚ) :
    List ℚ × List ℚ :=
  ((List.range iter_max).map (· + 1)).foldl
    (fun _ iteration =>
      ((List.range iter_size).map (fun k => dt iteration (k + 1)), [ct iteration]))
    ([], [])

/-- Rows written to `logs.csv` after the loop (train.py lines
229-233): `zip(data_times, compute_times)` over the timing lists as
they stand at loop exit. -/
def logsRows (iter_max iter_size : ℕ) (dt : ℕ → ℕ → ℚ) (ct : ℕ → ℚ) :
    List (ℚ × ℚ) :=
  (timingState iter_max iter_size dt ct).1.zip (timingState iter_max iter_size dt ct).2

/-! ## The data pull and its error handling -/

/-- Exceptions a `next(loader_iter)` call can raise: `StopIteration`
on exhaustion, or any other exception (worker failure, decode error,
...). -/
inductive PullErr where
  | stopIteration
  | worker
deriving DecidableEq

/-- A dataset-iterator state: the stream of outcomes the iterator
will deliver; `Except.ok b` is a batch, `Except.error e` a raised
exception. -/
abbrev LoaderStream := List (Except PullErr ℕ)

/-- One `next(loader_iter)` call: `StopIteration` when exhausted,
otherwise the head outcome. -/
def nextBatch : LoaderStream → Except PullErr (ℕ × LoaderStream)
  | [] => Except.error PullErr.stopIteration
  | Except.ok b :: rest => Except.ok (b, rest)
  | Except.error e :: _ => Except.error e

/-- The guarded data pull (train.py lines 164-168): `try:
next(loader_iter)` with a bare `except:` that rebuilds the iterator
from the loader (`full`) and retries exactly once; an exception from
the retry is not caught. -/
def pullBatch (cur full : LoaderStream) : Except PullErr (ℕ × LoaderStream) :=
  match nextBatch cur with
  | Except.ok r => Except.ok r
  | Except.error _ => nextBatch full

/-- Outcome of one sub-iteration: a loss with the advanced iterator,
or a fatal abort from the pull retry or from the unguarded
forward/backward/step code. -/
inductive SubOutcome (ε : Type) where
  | ok (loss : ℚ) (rest : LoaderStream)
  | fatalPull (e : PullErr)
  | fatalCompute (e : ε)

/-- One sub-iteration (train.py lines 162-192): the guarded pull,
then the forward/backward computation, which sits outside the
`try` block, so any exception it raises propagates and aborts the
run. -/
def subIterationStep {ε : Type} (cur full : LoaderStream)
    (compute : ℕ → Except ε ℚ) : SubOutcome ε :=
  match pullBatch cur full with
  | Except.error e => SubOutcome.fatalPull e
  | Except.ok (b, rest) =>
    match compute b with
    | Except.error e => SubOutcome.fatalCompute e
    | Except.ok l => SubOutcome.ok l rest

/-! ## Helper lemmas -/

/-- The scheduler writes only the three `lr` fields: group membership,
weight decay and momentum pass through both branches unchanged. -/
lemma polyFrame (opt : Optimizer) (init_lr : ℚ) (iter d max_iter p : ℕ) :
    (poly_lr_scheduler opt init_lr iter d max_iter p).g0.params = opt.g0.params ∧
    (poly_lr_scheduler opt init_lr iter d max_iter p).g1.params = opt.g1.params ∧
    (poly_lr_scheduler opt init_lr iter d max_iter p).g2.params = opt.g2.params ∧
    (poly_lr_scheduler opt init_lr iter d max_iter p).g0.weight_decay = opt.g0.weight_decay ∧
    (poly_lr_scheduler opt init_lr iter d max_iter p).g1.weight_decay = opt.g1.weight_decay ∧
    (poly_lr_scheduler opt init_lr iter d max_iter p).g2.weight_decay = opt.g2.weight_decay ∧
    (poly_lr_scheduler opt init_lr iter d max_iter p).momentum = opt.momentum := by
  rw [poly_lr_scheduler]
  split
  · exact ⟨rfl, rfl, rfl, rfl, rfl, rfl, rfl⟩
  · exact ⟨rfl, rfl, rfl, rfl, rfl, rfl, rfl⟩

/-- Threading the optimizer through any number of loop iterations
preserves every group's weight decay. -/
lemma loopOpt_weight_decay (opt : Optimizer) (init_lr : ℚ) (d max_iter p : ℕ) :
    ∀ n : ℕ,
      (loopOpt opt init_lr d max_iter p n).g0.weight_decay = opt.g0.weight_decay ∧
      (loopOpt opt init_lr d max_iter p n).g1.weight_decay = opt.g1.weight_decay ∧
      (loopOpt opt init_lr d max_iter p n).g2.weight_decay = opt.g2.weight_decay := by
  intro n
  induction n with
  | zero => exact ⟨rfl, rfl, rfl⟩
  | succ k ih =>
    have hf := polyFrame (loopOpt opt init_lr d max_iter p k) init_lr k d max_iter p
    exact ⟨hf.2.2.2.1.trans ih.1, hf.2.2.2.2.1.trans ih.2.1, hf.2.2.2.2.2.1.trans ih.2.2⟩

/-! ## Claim theorems: scheduler -/

/-- C2: the scheduler is the identity on the optimizer unless
`current_iter` is an exact multiple of `decay_interval` and
`current_iter ≤ max_iter`; when it fires it sets the base group's
learning rate to `base_lr * (1 - current_iter/max_iter)^power`, and
in particular at `current_iter = 0` it always fires, producing that
formula's value at 0. -/
theorem poly_lr_scheduler_spec (opt : Optimizer) (init_lr : ℚ) (iter d max_iter p : ℕ)
    (hd : 0 < d) (hmax : 0 < max_iter) :
    (¬ (iter % d = 0 ∧ iter ≤ max_iter) →
        poly_lr_scheduler opt init_lr iter d max_iter p = opt) ∧
    (iter % d = 0 → iter ≤ max_iter →
        (poly_lr_scheduler opt init_lr iter d max_iter p).g0.lr
          = init_lr * (1 - (iter : ℚ) / (max_iter : ℚ)) ^ p) ∧
    ((poly_lr_scheduler opt init_lr 0 d max_iter p).g0.lr
          = init_lr * (1 - (0 : ℚ) / (max_iter : ℚ)) ^ p) := by
  refine ⟨?_, ?_, ?_⟩
  · intro h
    rw [poly_lr_scheduler, if_pos]
    push_neg at h
    by_cases hm : iter % d = 0
    · exact Or.inr (h hm)
    · exact Or.inl hm
  · intro h1 h2
    rw [poly_lr_scheduler, if_neg]
    rintro (hc | hc)
    · exact hc h1
    · omega
  · rw [poly_lr_scheduler, if_neg]
    · norm_num
    · simp

/-- C3: immediately after a scheduler call that fires, the second
group's learning rate is ten times the base group's and the third
group's is twenty times the base group's. -/
theorem lr_group_ratios (opt : Optimizer) (init_lr : ℚ) (iter d max_iter p : ℕ)
    (hfire : iter % d = 0 ∧ iter ≤ max_iter) :
    (poly_lr_scheduler opt init_lr iter d max_iter p).g1.lr
        = 10 * (poly_lr_scheduler opt init_lr iter d max_iter p).g0.lr ∧
    (poly_lr_scheduler opt init_lr iter d max_iter p).g2.lr
        = 20 * (poly_lr_scheduler opt init_lr iter d max_iter p).g0.lr := by
  rw [poly_lr_scheduler, if_neg]
  · exact ⟨rfl, rfl⟩
  · rintro (hc | hc)
    · exact hc hfire.1
    · omega

/-- C7: for a nonnegative base learning rate and positive power, the
learning rate the scheduler installs is monotonically non-increasing
in the firing iteration over `0..max_iter`. -/
theorem new_lr_monotone (opt opt' : Optimizer) (init_lr : ℚ) (i j d max_iter p : ℕ)
    (hlr : 0 ≤ init_lr) (hp : 0 < p) (hij : i ≤ j)
    (hi : i % d = 0) (hj : j % d = 0) (hjm : j ≤ max_iter) (hmax : 0 < max_iter) :
    (poly_lr_scheduler opt' init_lr j d max_iter p).g0.lr
      ≤ (poly_lr_scheduler opt init_lr i d max_iter p).g0.lr := by
  have him : i ≤ max_iter := le_trans hij hjm
  rw [poly_lr_scheduler, if_neg, poly_lr_scheduler, if_neg]
  · show init_lr * (1 - (j : ℚ) / (max_iter : ℚ)) ^ p
        ≤ init_lr * (1 - (i : ℚ) / (max_iter : ℚ)) ^ p
    have hT : (0 : ℚ) < (max_iter : ℚ) := by exact_mod_cast hmax
    have h1 : (j : ℚ) / (max_iter : ℚ) ≤ 1 := by
      rw [div_le_one hT]; exact_mod_cast hjm
    have h2 : (i : ℚ) / (max_iter : ℚ) ≤ (j : ℚ) / (max_iter : ℚ) := by
      gcongr
    gcongr <;> linarith
  · rintro (hc | hc)
    · exact hc hi
    · omega
  · rintro (hc | hc)
    · exact hc hj
    · omega

/-- C9: a scheduler call, firing or not, changes at most the
learning-rate fields: each group's parameter membership and weight
decay and the momentum setting are untouched. -/
theorem scheduler_frame_effect (opt : Optimizer) (init_lr : ℚ) (iter d max_iter p : ℕ) :
    (poly_lr_scheduler opt init_lr iter d max_iter p).g0.params = opt.g0.params ∧
    (poly_lr_scheduler opt init_lr iter d max_iter p).g1.params = opt.g1.params ∧
    (poly_lr_scheduler opt init_lr iter d max_iter p).g2.params = opt.g2.params ∧
    (poly_lr_scheduler opt init_lr iter d max_iter p).g0.weight_decay = opt.g0.weight_decay ∧
    (poly_lr_scheduler opt init_lr iter d max_iter p).g1.weight_decay = opt.g1.weight_decay ∧
    (poly_lr_scheduler opt init_lr iter d max_iter p).g2.weight_decay = opt.g2.weight_decay ∧
    (poly_lr_scheduler opt init_lr iter d max_iter p).momentum = opt.momentum :=
  polyFrame opt init_lr iter d max_iter p

/-- C10: the optimizer is built with weight decay 0 on the ASPP-bias
group and the configured weight decay on the other two groups, and
after any number of training-loop iterations every group's weight
decay is still its constructed value. -/
theorem aspp_bias_never_decayed (model : Model) (lr wd mom : ℚ) (d max_iter p n : ℕ) :
    (buildOptimizer model lr wd mom).g0.weight_decay = wd ∧
    (buildOptimizer model lr wd mom).g1.weight_decay = wd ∧
    (buildOptimizer model lr wd mom).g2.weight_decay = 0 ∧
    (loopOpt (buildOptimizer model lr wd mom) lr d max_iter p n).g0.weight_decay = wd ∧
    (loopOpt (buildOptimizer model lr wd mom) lr d max_iter p n).g1.weight_decay = wd ∧
    (loopOpt (buildOptimizer model lr wd mom) lr d max_iter p n).g2.weight_decay = 0 := by
  have h := loopOpt_weight_decay (buildOptimizer model lr wd mom) lr d max_iter p n
  exact ⟨rfl, rfl, rfl, h.1, h.2.1, h.2.2⟩

/-! ## Claim theorems: gradient accumulation -/

/-- Folding dual addition accumulates values componentwise. -/
lemma foldl_dual_add (l : List Dual) : ∀ z : Dual,
    (l.foldl Dual.add z).val = z.val + (l.map Dual.val).sum ∧
    (l.foldl Dual.add z).grad = z.grad + (l.map Dual.grad).sum := by
  induction l with
  | nil => intro z; simp
  | cons a t ih =>
    intro z
    have h := ih (Dual.add z a)
    simp only [List.foldl_cons, List.map_cons, List.sum_cons] at h ⊢
    refine ⟨h.1.trans ?_, h.2.trans ?_⟩ <;> simp [Dual.add] <;> ring

/-- Dividing each list element before summing is dividing the sum. -/
lemma map_div_sum (l : List ℚ) (c : ℚ) : (l.map (fun x => x / c)).sum = l.sum / c := by
  induction l with
  | nil => simp
  | cons a t ih => simp [ih, add_div]

/-- The accumulation fold, from an arbitrary starting state. -/
lemma runIterationLosses_fold (N : ℕ) (subs : List (List Dual)) : ∀ s : IterState,
    (subs.foldl (fun s sc => runSubIteration N sc s) s).gradBuf
      = s.gradBuf + (subs.map (fun sc => (sumScaleLosses sc).grad / (N : ℚ))).sum ∧
    (subs.foldl (fun s sc => runSubIteration N sc s) s).iter_loss
      = s.iter_loss + (subs.map (fun sc => (sumScaleLosses sc).val / (N : ℚ))).sum := by
  induction subs with
  | nil => intro s; simp
  | cons a t ih =>
    intro s
    have h := ih (runSubIteration N a s)
    simp only [List.foldl_cons, List.map_cons, List.sum_cons] at h ⊢
    refine ⟨h.1.trans ?_, h.2.trans ?_⟩ <;> simp [runSubIteration] <;> ring

/-- C1: over one outer iteration with `iter_size = N` sub-iterations,
the gradient accumulated by the per-sub-iteration
divide-then-backpropagate scheme equals the gradient of the mean of
the per-sub-iteration summed-across-scales losses — not the gradient
of their sum, whenever that sum's gradient is nonzero and `N ≥ 2` —
and the reported iteration loss is the sum of the per-sub-iteration
summed losses divided by `N`. -/
theorem grad_accum_is_mean (N : ℕ) (subs : List (List Dual))
    (hN : 1 ≤ N) (hlen : subs.length = N) :
    (runIterationLosses N subs).gradBuf = (meanLossDual N subs).grad ∧
    (runIterationLosses N subs).iter_loss
      = ((subs.map sumScaleLosses).map Dual.val).sum / (N : ℚ) ∧
    (2 ≤ N → ((subs.map sumScaleLosses).map Dual.grad).sum ≠ 0 →
      (runIterationLosses N subs).gradBuf
        ≠ ((subs.map sumScaleLosses).map Dual.grad).sum) := by
  have hfold := runIterationLosses_fold N subs ⟨0, 0⟩
  have hmapg : subs.map (fun sc => (sumScaleLosses sc).grad / (N : ℚ))
      = ((subs.map sumScaleLosses).map Dual.grad).map (fun x => x / (N : ℚ)) := by
    simp [List.map_map]
  have hmapv : subs.map (fun sc => (sumScaleLosses sc).val / (N : ℚ))
      = ((subs.map sumScaleLosses).map Dual.val).map (fun x => x / (N : ℚ)) := by
    simp [List.map_map]
  have hg : (runIterationLosses N subs).gradBuf
      = ((subs.map sumScaleLosses).map Dual.grad).sum / (N : ℚ) := by
    have := hfold.1
    rw [hmapg, map_div_sum] at this
    simpa [runIterationLosses] using this
  have hv : (runIterationLosses N subs).iter_loss
      = ((subs.map sumScaleLosses).map Dual.val).sum / (N : ℚ) := by
    have := hfold.2
    rw [hmapv, map_div_sum] at this
    simpa [runIterationLosses] using this
  refine ⟨?_, hv, ?_⟩
  · have htot := foldl_dual_add (subs.map sumScaleLosses) ⟨0, 0⟩
    rw [hg, meanLossDual]
    simp [htot.2]
  · intro h2 hS hcontra
    rw [hg] at hcontra
    have hNne : ((N : ℚ)) ≠ 0 := by
      have : (0 : ℚ) < (N : ℚ) := by exact_mod_cast Nat.lt_of_lt_of_le Nat.zero_lt_one hN
      exact ne_of_gt this
    have hmul : ((subs.map sumScaleLosses).map Dual.grad).sum
        = ((subs.map sumScaleLosses).map Dual.grad).sum * (N : ℚ) :=
      (div_eq_iff hNne).mp hcontra
    have hone : ((subs.map sumScaleLosses).map Dual.grad).sum * 1
        = ((subs.map sumScaleLosses).map Dual.grad).sum * (N : ℚ) := by
      linarith
    have : (1 : ℚ) = (N : ℚ) := mul_left_cancel₀ hS hone
    have hN1 : N = 1 := by exact_mod_cast this.symm
    omega

/-! ## Claim theorems: checkpoint cadence -/

/-- History-file membership in one iteration's checkpoint writes. -/
lemma history_mem_iterationSaves (s k i : ℕ) :
    SaveFile.history i ∈ iterationSaves s k ↔ (k = i ∧ k % s = 0) := by
  by_cases h1 : k % s = 0 <;> by_cases h2 : k % 100 = 0 <;>
    simp [iterationSaves, h1, h2, eq_comm]

/-- Current-file membership in one iteration's checkpoint writes. -/
lemma current_mem_iterationSaves (s k : ℕ) :
    SaveFile.current ∈ iterationSaves s k ↔ k % 100 = 0 := by
  by_cases h1 : k % s = 0 <;> by_cases h2 : k % 100 = 0 <;>
    simp [iterationSaves, h1, h2]

/-- The final file is never written inside the loop. -/
lemma final_not_mem_iterationSaves (s k : ℕ) :
    SaveFile.final ∉ iterationSaves s k := by
  by_cases h1 : k % s = 0 <;> by_cases h2 : k % 100 = 0 <;>
    simp [iterationSaves, h1, h2]

/-- Restricting one iteration's checkpoint writes to history files. -/
lemma filter_history_iterationSaves (s k : ℕ) :
    (iterationSaves s k).filter SaveFile.isHistory
      = if k % s = 0 then [SaveFile.history k] else [] := by
  by_cases h1 : k % s = 0 <;> by_cases h2 : k % 100 = 0 <;>
    simp [iterationSaves, h1, h2, SaveFile.isHistory]

/-- History files carry pairwise-distinct iteration tags when drawn
from a duplicate-free list of iterations: a flat map that yields at
most the tagged history file per iteration is duplicate-free. -/
lemma nodup_history_flatMap (f : ℕ → List SaveFile)
    (hf : ∀ k, f k = [SaveFile.history k] ∨ f k = []) :
    ∀ l : List ℕ, l.Nodup → (l.flatMap f).Nodup := by
  intro l
  induction l with
  | nil => simp
  | cons a t ih =>
    intro h
    rw [List.flatMap_cons]
    apply List.Nodup.append
    · rcases hf a with hfa | hfa <;> simp [hfa]
    · exact ih (List.nodup_cons.mp h).2
    · intro x hx hx2
      have hxa : x = SaveFile.history a := by
        rcases hf a with hfa | hfa <;> rw [hfa] at hx <;> simp at hx
        exact hx
      obtain ⟨k, hk, hxk⟩ := List.mem_flatMap.mp hx2
      have hka : k = a := by
        rcases hf k with hfk | hfk <;> rw [hfk] at hxk <;> simp [hxa] at hxk
        exact hxk.symm
      exact (List.nodup_cons.mp h).1 (hka ▸ hk)

set_option maxRecDepth 10000 in
/-- C5: over a run of `iter_max` outer iterations, a history
checkpoint named by the iteration number is written exactly at the
iterations in `1..iter_max` that are multiples of `iter_save`, the
fixed current file is written in an iteration exactly when the
iteration number is a multiple of 100, exactly one final file is
written, history files are pairwise distinct (never overwritten), and
for `iter_save = 1000`, `iter_max = 2500` the history checkpoints are
exactly the two at 1000 and 2000. -/
theorem checkpoint_cadence (iter_max iter_save : ℕ) (hs : 0 < iter_save) :
    (∀ i, SaveFile.history i ∈ runSaves iter_max iter_save
        ↔ (1 ≤ i ∧ i ≤ iter_max ∧ iter_save ∣ i)) ∧
    (∀ i, SaveFile.current ∈ iterationSaves iter_save i ↔ 100 ∣ i) ∧
    ((runSaves iter_max iter_save).count SaveFile.final = 1) ∧
    ((runSaves iter_max iter_save).filter SaveFile.isHistory).Nodup ∧
    ((runSaves 2500 1000).filter SaveFile.isHistory
        = [SaveFile.history 1000, SaveFile.history 2000]) := by
  refine ⟨?_, ?_, ?_, ?_, ?_⟩
  · intro i
    unfold runSaves
    rw [List.mem_append]
    simp only [List.mem_flatMap, List.mem_map, List.mem_range,
      history_mem_iterationSaves, List.mem_singleton]
    constructor
    · rintro (⟨k, ⟨b, hb, rfl⟩, hk1, hk2⟩ | h)
      · subst hk1
        exact ⟨by omega, by omega, Nat.dvd_of_mod_eq_zero hk2⟩
      · exact absurd h (by simp)
    · rintro ⟨h1, h2, h3⟩
      exact Or.inl ⟨i, ⟨i - 1, by omega, by omega⟩, rfl, Nat.mod_eq_zero_of_dvd h3⟩
  · intro i
    rw [current_mem_iterationSaves, Nat.dvd_iff_mod_eq_zero]
  · unfold runSaves
    rw [List.count_append]
    have h0 : (((List.range iter_max).map (· + 1)).flatMap
        (iterationSaves iter_save)).count SaveFile.final = 0 := by
      rw [List.count_eq_zero]
      intro hmem
      obtain ⟨k, _, hk⟩ := List.mem_flatMap.mp hmem
      exact final_not_mem_iterationSaves iter_save k hk
    rw [h0]
    simp
  · unfold runSaves
    rw [List.filter_append, List.filter_flatMap]
    have hfin : [SaveFile.final].filter SaveFile.isHistory = [] := rfl
    rw [hfin, List.append_nil]
    apply nodup_history_flatMap
    · intro k
      rw [filter_history_iterationSaves]
      by_cases h : k % iter_save = 0 <;> simp [h]
    · exact List.Nodup.map (fun a b h => by omega) (List.nodup_range _)
  · decide

/-! ## Claim theorems: the timing log -/

/-- C6 counterexample: with 2 outer iterations of 3 sub-iterations
each (all latencies 0), `logs.csv` holds a single row, not
`iter_max * iter_size = 6`: both timing lists are rebound at the
start of every outer iteration and only one compute latency is
appended per outer iteration, so the zip truncates to one pair. -/
theorem logs_rows_cx :
    (logsRows 2 3 (fun _ _ => 0) (fun _ => 0)).length = 1 ∧
    (logsRows 2 3 (fun _ _ => 0) (fun _ => 0)).length ≠ 2 * 3 := by
  constructor <;> decide

/-- C6 amended: at run completion `logs.csv` holds exactly one row,
pairing the last outer iteration's first sub-iteration data-fetch
latency with the last outer iteration's single compute latency. -/
theorem logs_rows_amended (iter_max iter_size : ℕ) (dt : ℕ → ℕ → ℚ) (ct : ℕ → ℚ)
    (h1 : 1 ≤ iter_max) (h2 : 1 ≤ iter_size) :
    logsRows iter_max iter_size dt ct = [(dt iter_max 1, ct iter_max)] := by
  obtain ⟨n, rfl⟩ : ∃ n, iter_max = n + 1 := ⟨iter_max - 1, by omega⟩
  obtain ⟨m, rfl⟩ : ∃ m, iter_size = m + 1 := ⟨iter_size - 1, by omega⟩
  have hts : timingState (n + 1) (m + 1) dt ct
      = ((List.range (m + 1)).map (fun k => dt (n + 1) (k + 1)), [ct (n + 1)]) := by
    unfold timingState
    rw [List.range_succ (n := n)]
    simp
  rw [logsRows, hts]
  rw [List.range_succ_eq_map]
  simp

/-! ## Claim theorems: data-pull error handling -/

/-- C4 counterexample: a pull whose first `next` raises a
non-exhaustion exception is silently caught by the bare `except:`
and retried from a restarted iterator; here the retry succeeds, so no
error surfaces and the iteration proceeds, where the claim demands
that any non-exhaustion error be fatal. -/
theorem pull_other_error_not_fatal :
    pullBatch [Except.error PullErr.worker] [Except.ok 0] = Except.ok (0, []) ∧
    PullErr.worker ≠ PullErr.stopIteration := by
  constructor
  · rfl
  · intro h
    exact PullErr.noConfusion h

/-- C4 amended: the bare `except:` around `next(loader_iter)` catches
every exception from the pull, exhaustion or not, restarts the
iterator and retries exactly once; an exception raised by the retry
is fatal, and any error in the forward/backward computation, which
sits outside the `try`, is fatal with no retry. -/
theorem pull_retry_semantics {ε : Type} (cur full : LoaderStream)
    (compute : ℕ → Except ε ℚ) :
    (∀ b rest, nextBatch cur = Except.ok (b, rest) →
        pullBatch cur full = Except.ok (b, rest)) ∧
    (∀ e, nextBatch cur = Except.error e → pullBatch cur full = nextBatch full) ∧
    (pullBatch [] full = nextBatch full) ∧
    (∀ e e2, nextBatch cur = Except.error e → nextBatch full = Except.error e2 →
        subIterationStep cur full compute = SubOutcome.fatalPull e2) ∧
    (∀ b rest e, pullBatch cur full = Except.ok (b, rest) → compute b = Except.error e →
        subIterationStep cur full compute = SubOutcome.fatalCompute e) := by
  refine ⟨?_, ?_, ?_, ?_, ?_⟩
  · intro b rest h
    simp [pullBatch, h]
  · intro e h
    simp [pullBatch, h]
  · rfl
  · intro e e2 h1 h2
    have hp : pullBatch cur full = Except.error e2 := by
      simp [pullBatch, h1, h2]
    simp [subIterationStep, hp]
  · intro b rest e h1 h2
    simp [subIterationStep, h1, h2]

/-! ## Claim theorems: the parameter grouper -/

/-- The three guards of `get_params` select exactly one branch. -/
lemma get_params_1x (model : Model) : get_params model "1x" = model.flatMap yield1x := by
  unfold get_params
  rw [if_pos rfl, if_neg (by decide), if_neg (by decide)]
  simp

/-- Key `"10x"` selects only the middle branch. -/
lemma get_params_10x (model : Model) : get_params model "10x" = model.flatMap yield10x := by
  unfold get_params
  rw [if_neg (by decide), if_pos rfl, if_neg (by decide)]
  simp

/-- Key `"20x"` selects only the last branch. -/
lemma get_params_20x (model : Model) : get_params model "20x" = model.flatMap yield20x := by
  unfold get_params
  rw [if_neg (by decide), if_neg (by decide), if_pos rfl]
  simp

/-- An object yielded by the base branch is a tensor of a module
whose name contains `"layer"`. -/
lemma mem_yield1x (nm : String) (md : PMod) (t : TObj) (h : t ∈ yield1x (nm, md)) :
    strContainsSub nm "layer" = true ∧ ∃ x, t = some x ∧ x ∈ md.parameters := by
  unfold yield1x at h
  by_cases hc : strContainsSub nm "layer" = true
  · refine ⟨hc, ?_⟩
    cases md with
    | conv2d w b =>
      rw [if_pos hc] at h
      obtain ⟨x, hx, hxe⟩ := List.mem_map.mp h
      exact ⟨x, hxe.symm, hx⟩
    | nonConv ps =>
      rw [if_pos hc] at h
      simp at h
  · rw [if_neg hc] at h
    simp at h

/-- An object yielded by the ASPP-weight branch is the weight of a
convolution whose name contains `"aspp"`. -/
lemma mem_yield10x (nm : String) (md : PMod) (t : TObj) (h : t ∈ yield10x (nm, md)) :
    strContainsSub nm "aspp" = true ∧ ∃ w b, md = PMod.conv2d w b ∧ t = some w := by
  unfold yield10x at h
  by_cases hc : strContainsSub nm "aspp" = true
  · refine ⟨hc, ?_⟩
    cases md with
    | conv2d w b =>
      rw [if_pos hc] at h
      simp at h
      exact ⟨w, b, rfl, h⟩
    | nonConv ps =>
      rw [if_pos hc] at h
      simp at h
  · rw [if_neg hc] at h
    simp at h

/-- An object yielded by the ASPP-bias branch is the bias attribute
of a convolution whose name contains `"aspp"`. -/
lemma mem_yield20x (nm : String) (md : PMod) (t : TObj) (h : t ∈ yield20x (nm, md)) :
    strContainsSub nm "aspp" = true ∧ ∃ w b, md = PMod.conv2d w b ∧ t = b := by
  unfold yield20x at h
  by_cases hc : strContainsSub nm "aspp" = true
  · refine ⟨hc, ?_⟩
    cases md with
    | conv2d w b =>
      rw [if_pos hc] at h
      simp at h
      exact ⟨w, b, rfl, h⟩
    | nonConv ps =>
      rw [if_pos hc] at h
      simp at h
  · rw [if_neg hc] at h
    simp at h

/-- The ASPP-weight branch yields nothing on a module that is not an
ASPP convolution. -/
lemma yield10x_eq_nil (nm : String) (md : PMod)
    (h : ¬(strContainsSub nm "aspp" = true ∧ PMod.isConv md = true)) :
    yield10x (nm, md) = [] := by
  unfold yield10x
  by_cases hc : strContainsSub nm "aspp" = true
  · cases md with
    | conv2d w b => exact absurd ⟨hc, rfl⟩ h
    | nonConv ps => rw [if_pos hc]
  · rw [if_neg hc]

/-- The ASPP-bias branch yields nothing on a module that is not an
ASPP convolution. -/
lemma yield20x_eq_nil (nm : String) (md : PMod)
    (h : ¬(strContainsSub nm "aspp" = true ∧ PMod.isConv md = true)) :
    yield20x (nm, md) = [] := by
  unfold yield20x
  by_cases hc : strContainsSub nm "aspp" = true
  · cases md with
    | conv2d w b => exact absurd ⟨hc, rfl⟩ h
    | nonConv ps => rw [if_pos hc]
  · rw [if_neg hc]

/-- The base branch yields nothing on a module that is not a backbone
convolution. -/
lemma yield1x_eq_nil (nm : String) (md : PMod)
    (h : ¬(strContainsSub nm "layer" = true ∧ PMod.isConv md = true)) :
    yield1x (nm, md) = [] := by
  unfold yield1x
  by_cases hc : strContainsSub nm "layer" = true
  · cases md with
    | conv2d w b => exact absurd ⟨hc, rfl⟩ h
    | nonConv ps => rw [if_pos hc]
  · rw [if_neg hc]

/-- C8 counterexample: on a model with one convolution whose
qualified name contains both `"layer"` and `"aspp"`, the weight
tensor is yielded by the base group and by the ASPP-weight group, so
the grouper's sequences are not pairwise disjoint for every model. -/
theorem get_params_overlap_cx :
    some 0 ∈ get_params [("layer_aspp", PMod.conv2d 0 (some 1))] "1x" ∧
    some 0 ∈ get_params [("layer_aspp", PMod.conv2d 0 (some 1))] "10x" := by
  constructor <;> decide

/-- C8 amended: for a model whose parameter tensors are pairwise
distinct and in which no module's qualified name contains both
`"layer"` and `"aspp"`, the three groups are pairwise disjoint; and
independently of those hypotheses, a model in which no module
matches a key's name-and-type test makes the grouper produce an
empty sequence for that key, never an error. -/
theorem get_params_amended (model : Model)
    (hnodup : (model.flatMap (fun m => m.2.parameters)).Nodup)
    (hnames : ∀ m ∈ model,
        ¬(strContainsSub m.1 "layer" = true ∧ strContainsSub m.1 "aspp" = true)) :
    (∀ t, t ∈ get_params model "1x" → t ∉ get_params model "10x") ∧
    (∀ t, t ∈ get_params model "1x" → t ∉ get_params model "20x") ∧
    (∀ t, t ∈ get_params model "10x" → t ∉ get_params model "20x") ∧
    ((∀ m ∈ model, ¬(strContainsSub m.1 "aspp" = true ∧ PMod.isConv m.2 = true)) →
        get_params model "10x" = [] ∧ get_params model "20x" = []) ∧
    ((∀ m ∈ model, ¬(strContainsSub m.1 "layer" = true ∧ PMod.isConv m.2 = true)) →
        get_params model "1x" = []) := by
  have hsplit := List.nodup_flatMap.mp hnodup
  have hnd : ∀ m ∈ model, (m : String × PMod).2.parameters.Nodup := hsplit.1
  have hpw := hsplit.2
  have hsym : Symmetric (Function.onFun List.Disjoint (fun m : String × PMod => m.2.parameters)) :=
    fun a b h x hxa hxb => h hxb hxa
  have hcross : ∀ m ∈ model, ∀ m2 ∈ model, ∀ x : ℕ,
      x ∈ (m : String × PMod).2.parameters → x ∈ (m2 : String × PMod).2.parameters →
      m = m2 := by
    intro m hm m2 hm2 x hx hx2
    by_contra hne
    exact hpw.forall hsym hm hm2 hne hx hx2
  refine ⟨?_, ?_, ?_, ?_, ?_⟩
  · intro t h1 h10
    rw [get_params_1x] at h1
    rw [get_params_10x] at h10
    obtain ⟨⟨nm, md⟩, hm, hy1⟩ := List.mem_flatMap.mp h1
    obtain ⟨⟨nm2, md2⟩, hm2, hy10⟩ := List.mem_flatMap.mp h10
    obtain ⟨hc1, x, htx, hxp⟩ := mem_yield1x nm md t hy1
    obtain ⟨hc2, w, b, hmd2, htw⟩ := mem_yield10x nm2 md2 t hy10
    have hxw : x = w := by
      rw [htx] at htw
      exact Option.some.inj htw
    have hx2p : x ∈ md2.parameters := by
      rw [hmd2, hxw]
      exact List.mem_cons_self _ _
    have heq := hcross (nm, md) hm (nm2, md2) hm2 x hxp hx2p
    have hnmeq : nm = nm2 := congrArg Prod.fst heq
    exact hnames (nm, md) hm ⟨hc1, hnmeq ▸ hc2⟩
  · intro t h1 h20
    rw [get_params_1x] at h1
    rw [get_params_20x] at h20
    obtain ⟨⟨nm, md⟩, hm, hy1⟩ := List.mem_flatMap.mp h1
    obtain ⟨⟨nm2, md2⟩, hm2, hy20⟩ := List.mem_flatMap.mp h20
    obtain ⟨hc1, x, htx, hxp⟩ := mem_yield1x nm md t hy1
    obtain ⟨hc2, w, b, hmd2, htb⟩ := mem_yield20x nm2 md2 t hy20
    have hbx : b = some x := by
      rw [htx] at htb
      exact htb.symm
    have hx2p : x ∈ md2.parameters := by
      rw [hmd2, hbx]
      exact List.mem_cons_of_mem _ (by simp)
    have heq := hcross (nm, md) hm (nm2, md2) hm2 x hxp hx2p
    have hnmeq : nm = nm2 := congrArg Prod.fst heq
    exact hnames (nm, md) hm ⟨hc1, hnmeq ▸ hc2⟩
  · intro t h10 h20
    rw [get_params_10x] at h10
    rw [get_params_20x] at h20
    obtain ⟨⟨nm, md⟩, hm, hy10⟩ := List.mem_flatMap.mp h10
    obtain ⟨⟨nm2, md2⟩, hm2, hy20⟩ := List.mem_flatMap.mp h20
    obtain ⟨hc2, w, b, hmd, htw⟩ := mem_yield10x nm md t hy10
    obtain ⟨hc3, w2, b2, hmd2, htb⟩ := mem_yield20x nm2 md2 t hy20
    have hb2 : b2 = some w := by
      rw [htw] at htb
      exact htb.symm
    have hwp : w ∈ md.parameters := by
      rw [hmd]
      exact List.mem_cons_self _ _
    have hwp2 : w ∈ md2.parameters := by
      rw [hmd2, hb2]
      exact List.mem_cons_of_mem _ (by simp)
    have heq := hcross (nm, md) hm (nm2, md2) hm2 w hwp hwp2
    have hmdeq : md = md2 := congrArg Prod.snd heq
    have hnodup2 := hnd (nm2, md2) hm2
    rw [hmd2, hb2] at hnodup2
    have hw2 : w2 = w := by
      have : PMod.conv2d w b = PMod.conv2d w2 b2 := by rw [← hmd, ← hmd2, hmdeq]
      injection this with h1 h2
      exact h1.symm
    rw [hw2] at hnodup2
    simp [PMod.parameters] at hnodup2
  · intro hnone
    constructor
    · rw [get_params_10x, List.flatMap_eq_nil_iff]
      rintro ⟨nm, md⟩ hm
      exact yield10x_eq_nil nm md (hnone (nm, md) hm)
    · rw [get_params_20x, List.flatMap_eq_nil_iff]
      rintro ⟨nm, md⟩ hm
      exact yield20x_eq_nil nm md (hnone (nm, md) hm)
  · intro hnone
    rw [get_params_1x, List.flatMap_eq_nil_iff]
    rintro ⟨nm, md⟩ hm
    exact yield1x_eq_nil nm md (hnone (nm, md) hm)

/-! ## Witnesses -/

/-- Witness for the scheduler contract at a concrete firing and
non-firing input. -/
theorem poly_lr_scheduler_spec_w :
    ((0 < 2 ∧ 0 < 10) ∧
      ((¬((3 : ℕ) % 2 = 0 ∧ 3 ≤ 10) →
          poly_lr_scheduler (buildOptimizer [] 1 1 1) 1 3 2 10 2 = buildOptimizer [] 1 1 1) ∧
        ((3 : ℕ) % 2 = 0 → 3 ≤ 10 →
          (poly_lr_scheduler (buildOptimizer [] 1 1 1) 1 3 2 10 2).g0.lr
            = 1 * (1 - ((3 : ℕ) : ℚ) / ((10 : ℕ) : ℚ)) ^ 2) ∧
        ((poly_lr_scheduler (buildOptimizer [] 1 1 1) 1 0 2 10 2).g0.lr
            = 1 * (1 - (0 : ℚ) / ((10 : ℕ) : ℚ)) ^ 2))) :=
  ⟨⟨by decide, by decide⟩,
    poly_lr_scheduler_spec (buildOptimizer [] 1 1 1) 1 3 2 10 2 (by decide) (by decide)⟩

/-- Witness for the group learning-rate ratios at a concrete firing
input. -/
theorem lr_group_ratios_w :
    ((4 : ℕ) % 2 = 0 ∧ 4 ≤ 10) ∧
    ((poly_lr_scheduler (buildOptimizer [] 1 1 1) 1 4 2 10 2).g1.lr
        = 10 * (poly_lr_scheduler (buildOptimizer [] 1 1 1) 1 4 2 10 2).g0.lr ∧
      (poly_lr_scheduler (buildOptimizer [] 1 1 1) 1 4 2 10 2).g2.lr
        = 20 * (poly_lr_scheduler (buildOptimizer [] 1 1 1) 1 4 2 10 2).g0.lr) :=
  ⟨⟨by decide, by decide⟩,
    lr_group_ratios (buildOptimizer [] 1 1 1) 1 4 2 10 2 ⟨by decide, by decide⟩⟩

/-- Witness for monotonicity of the scheduled learning rate between
two concrete firing iterations. -/
theorem new_lr_monotone_w :
    ((0 : ℚ) ≤ 1 ∧ 0 < 2 ∧ (2 : ℕ) ≤ 4 ∧ (2 : ℕ) % 2 = 0 ∧ (4 : ℕ) % 2 = 0 ∧
      (4 : ℕ) ≤ 10 ∧ 0 < 10) ∧
    (poly_lr_scheduler (buildOptimizer [] 1 1 1) 1 4 2 10 2).g0.lr
      ≤ (poly_lr_scheduler (buildOptimizer [] 1 1 1) 1 2 2 10 2).g0.lr :=
  ⟨⟨by norm_num, by decide, by decide, by decide, by decide, by decide, by decide⟩,
    new_lr_monotone (buildOptimizer [] 1 1 1) (buildOptimizer [] 1 1 1) 1 2 4 2 10 2
      (by norm_num) (by decide) (by decide) (by decide) (by decide) (by decide) (by decide)⟩

/-- Witness for the accumulation-loop invariant on two concrete
sub-iterations with a single scale each. -/
theorem grad_accum_is_mean_w :
    ((1 : ℕ) ≤ 2 ∧ ([[(⟨1, 2⟩ : Dual)], [⟨3, 4⟩]] : List (List Dual)).length = 2) ∧
    ((runIterationLosses 2 [[⟨1, 2⟩], [⟨3, 4⟩]]).gradBuf
        = (meanLossDual 2 [[⟨1, 2⟩], [⟨3, 4⟩]]).grad ∧
      (runIterationLosses 2 [[⟨1, 2⟩], [⟨3, 4⟩]]).iter_loss
        = ((([[⟨1, 2⟩], [⟨3, 4⟩]] : List (List Dual)).map sumScaleLosses).map Dual.val).sum
            / ((2 : ℕ) : ℚ) ∧
      (2 ≤ 2 →
        ((([[⟨1, 2⟩], [⟨3, 4⟩]] : List (List Dual)).map sumScaleLosses).map Dual.grad).sum ≠ 0 →
        (runIterationLosses 2 [[⟨1, 2⟩], [⟨3, 4⟩]]).gradBuf
          ≠ ((([[⟨1, 2⟩], [⟨3, 4⟩]] : List (List Dual)).map sumScaleLosses).map Dual.grad).sum)) :=
  ⟨⟨by decide, by decide⟩, grad_accum_is_mean 2 [[⟨1, 2⟩], [⟨3, 4⟩]] (by decide) (by decide)⟩

/-- Witness for the checkpoint cadence at the spec's concrete
configuration. -/
theorem checkpoint_cadence_w :
    (0 < 1000) ∧
    ((∀ i, SaveFile.history i ∈ runSaves 2500 1000 ↔ (1 ≤ i ∧ i ≤ 2500 ∧ 1000 ∣ i)) ∧
      (∀ i, SaveFile.current ∈ iterationSaves 1000 i ↔ 100 ∣ i) ∧
      ((runSaves 2500 1000).count SaveFile.final = 1) ∧
      ((runSaves 2500 1000).filter SaveFile.isHistory).Nodup ∧
      ((runSaves 2500 1000).filter SaveFile.isHistory
        = [SaveFile.history 1000, SaveFile.history 2000])) :=
  ⟨by decide, checkpoint_cadence 2500 1000 (by decide)⟩

/-- Witness for the amended timing-log row count at a concrete
configuration. -/
theorem logs_rows_amended_w :
    ((1 : ℕ) ≤ 2 ∧ (1 : ℕ) ≤ 3) ∧
    logsRows 2 3 (fun _ _ => (5 : ℚ)) (fun _ => (7 : ℚ))
      = [((fun _ _ => (5 : ℚ)) 2 1, (fun _ => (7 : ℚ)) 2)] :=
  ⟨⟨by decide, by decide⟩,
    logs_rows_amended 2 3 (fun _ _ => (5 : ℚ)) (fun _ => (7 : ℚ)) (by decide) (by decide)⟩

/-- Witness for the amended pull semantics: a worker error on the
pull leads to a retry against an exhausted loader, and the retry's
exhaustion surfaces as the fatal error. -/
theorem pull_retry_semantics_w :
    pullBatch [Except.error PullErr.worker] [] = nextBatch ([] : LoaderStream) ∧
    subIterationStep [Except.error PullErr.worker] ([] : LoaderStream)
        (fun _ => (Except.ok (1 : ℚ) : Except Unit ℚ))
      = SubOutcome.fatalPull PullErr.stopIteration :=
  ⟨(pull_retry_semantics [Except.error PullErr.worker] []
      (fun _ => (Except.ok (1 : ℚ) : Except Unit ℚ))).2.1 PullErr.worker rfl,
    (pull_retry_semantics [Except.error PullErr.worker] []
      (fun _ => (Except.ok (1 : ℚ) : Except Unit ℚ))).2.2.2.1
      PullErr.worker PullErr.stopIteration rfl rfl⟩

/-- Witness for the amended grouper disjointness on the fixture
model. -/
theorem get_params_amended_w :
    ((modelW.flatMap (fun m => m.2.parameters)).Nodup ∧
      (∀ m ∈ modelW,
        ¬(strContainsSub m.1 "layer" = true ∧ strContainsSub m.1 "aspp" = true))) ∧
    (∀ t, t ∈ get_params modelW "1x" → t ∉ get_params modelW "10x") :=
  ⟨⟨by decide, by decide⟩, (get_params_amended modelW (by decide) (by decide)).1⟩

end DeepLab
